import Mathlib

/-!
# Verification of the `go_config_reader` configuration library

This file gives a shallow embedding of the core of the
`dredfort42/go_config_reader` Go library (an in-memory hierarchical
configuration store with an INI parser, dot-path resolution, typed
accessors, and an ordered load pipeline) and proves or refutes the
frozen specification claims about it.

Embedding conventions:
* Go's `map[string]any` value trees become the mutual inductive
  `Value` / `Fields`.  `Fields` is an association list with unique
  keys; `mapGet` / `mapSet` model Go map lookup and assignment.
  Go map iteration order is unspecified; wherever the source iterates
  over a map (defaults application, `maps.Copy`) the embedding takes a
  list and folds in list order, and the proofs either do not depend on
  the order or are established for every relevant order.
* Go strings are Lean `String`s; all string manipulation from the
  source (`strings.TrimSpace`, `strings.Split`, `strings.Cut`,
  `strings.HasPrefix/HasSuffix`, `strings.ContainsAny`, ...) is
  re-implemented structurally on `List Char` so that every definition
  is executable and kernel-reducible.  The embedding models the ASCII
  behaviour of these functions, which is the behaviour exercised by
  configuration data.
* Machine integers: the embedding models the 64-bit platform the
  library targets, so Go `int` and `int64` both hold values in
  `[-2^63, 2^63-1]`; the two dynamic types are distinguished by the
  `Value.vInt` / `Value.vInt64` constructors.
* A `nil *Config` receiver is modelled by `Option Fields`; a method
  that dereferences a nil receiver (through `c.mu`) is modelled as the
  `GoOutcome.nilPanic` outcome.
-/

namespace GoConfig

mutual

/-- Dynamic Go values stored in the configuration tree
(`map[string]any` in the source).  `vInt` models a Go `int`,
`vInt64` a Go `int64` (distinct dynamic types with identical 64-bit
range), `vFloat m e` models the float `m * 10^(-e)` (floating-point
arithmetic itself is never relied on by a theorem), `vList` a
`[]string`, `vMap` a nested `map[string]any`, `vNull` Go `nil`. -/
inductive Value where
  | vStr : String → Value
  | vInt : Int → Value
  | vInt64 : Int → Value
  | vFloat : Int → Nat → Value
  | vBool : Bool → Value
  | vList : List String → Value
  | vMap : Fields → Value
  | vNull : Value

/-- Association-list model of a Go `map[string]any` with unique keys. -/
inductive Fields where
  | nil : Fields
  | cons (key : String) (value : Value) (rest : Fields) : Fields

end

/-- Go map lookup `v, ok := m[k]` as an `Option`. -/
def mapGet : Fields → String → Option Value
  | .nil, _ => none
  | .cons k v rest, key => if k = key then some v else mapGet rest key

/-- Go map assignment `m[k] = v`: replaces the value of an existing
key in place, otherwise appends the new entry. -/
def mapSet : Fields → String → Value → Fields
  | .nil, key, v => .cons key v .nil
  | .cons k w rest, key, v =>
      if k = key then .cons k v rest else .cons k w (mapSet rest key v)

/-- Number of entries (`len(m)`). -/
def fieldsLen : Fields → Nat
  | .nil => 0
  | .cons _ _ rest => fieldsLen rest + 1

/-- The list of keys of a map, in entry order. -/
def fieldsKeys : Fields → List String
  | .nil => []
  | .cons k _ rest => k :: fieldsKeys rest

/-- `true` iff the value is a nested map — the `value.(map[string]any)`
type assertion of the source. -/
def isVMap : Value → Bool
  | .vMap _ => true
  | _ => false

/-! ## String helpers (ASCII models of the `strings` package) -/

/-- Characters treated as white space by `strings.TrimSpace`
(ASCII subset of `unicode.IsSpace`). -/
def isSpaceCh (c : Char) : Bool :=
  c = ' ' ∨ c = '\t' ∨ c = '\n' ∨ c = '\x0b' ∨ c = '\x0c' ∨ c = '\r'

/-- `strings.TrimSpace`. -/
def goTrim (s : String) : String :=
  ⟨((s.data.dropWhile isSpaceCh).reverse.dropWhile isSpaceCh).reverse⟩

/-- Whether the character occurs in the string
(`strings.Contains(s, string(c))` for a one-character needle). -/
def strContainsCh (s : String) (c : Char) : Bool :=
  s.data.any (fun d => d = c)

/-- `strings.ContainsAny(s, chars)`. -/
def strContainsAny (s : String) (chars : List Char) : Bool :=
  s.data.any (fun d => chars.contains d)

/-- Helper for `splitOnCh`: split a character list at every
occurrence of `c`, `acc` holding the current chunk reversed. -/
def splitChAux (c : Char) : List Char → List Char → List (List Char)
  | [], acc => [acc.reverse]
  | d :: rest, acc =>
      if d = c then acc.reverse :: splitChAux c rest []
      else splitChAux c rest (d :: acc)

/-- `strings.Split(s, string(c))` for a one-character separator. -/
def splitOnCh (c : Char) (s : String) : List String :=
  (splitChAux c s.data []).map (fun l => ⟨l⟩)

/-- The dot-path segments of a key: `strings.Split(key, ".")`. -/
def splitDots (s : String) : List String := splitOnCh '.' s

/-- List-level prefix test (`strings.HasPrefix` on char lists). -/
def leadsWithL : List Char → List Char → Bool
  | [], _ => true
  | _ :: _, [] => false
  | p :: ps, c :: cs => p = c ∧ leadsWithL ps cs

/-- `strings.HasPrefix(s, p)`. -/
def leadsWith (s p : String) : Bool := leadsWithL p.data s.data

/-- `strings.HasSuffix(s, p)`. -/
def trailsWith (s p : String) : Bool :=
  leadsWithL p.data.reverse s.data.reverse

/-- `strings.TrimSuffix(s, p)`: drops one occurrence of the suffix if
present. -/
def dropTrail (s p : String) : String :=
  if trailsWith s p then ⟨(s.data.reverse.drop p.data.length).reverse⟩ else s

/-- Helper for `cutEq`: scan for the first `=`. -/
def cutEqAux : List Char → List Char → Option (List Char × List Char)
  | [], _ => none
  | d :: rest, acc =>
      if d = '=' then some (acc.reverse, rest) else cutEqAux rest (d :: acc)

/-- `strings.Cut(line, "=")`: split at the first `=`; `none` when the
separator does not occur. -/
def cutEq (s : String) : Option (String × String) :=
  match cutEqAux s.data [] with
  | none => none
  | some (k, v) => some (⟨k⟩, ⟨v⟩)

/-- ASCII `strings.ToLower`. -/
def asciiLower (s : String) : String :=
  ⟨s.data.map (fun c => if 'A' ≤ c ∧ c ≤ 'Z' then Char.ofNat (c.toNat + 32) else c)⟩

/-! ## Number parsing (models of `strconv`) -/

/-- Decimal digit test. -/
def isDigitCh (c : Char) : Bool := '0' ≤ c ∧ c ≤ '9'

/-- Digit run to a natural number; `none` on empty input or a
non-digit character. -/
def digitsToNat? : List Char → Option Nat
  | [] => none
  | cs => cs.foldl
      (fun acc c => match acc with
        | none => none
        | some n => if isDigitCh c then some (n * 10 + (c.toNat - '0'.toNat)) else none)
      (some 0)

/-- The largest Go `int64` / 64-bit `int` value, `2^63 - 1`
(`int64(^uint(0) >> 1)` in the source on a 64-bit platform). -/
def maxInt64 : Int := 9223372036854775807

/-- The smallest Go `int64` / 64-bit `int` value, `-2^63`. -/
def minInt64 : Int := -9223372036854775808

/-- `strconv.ParseInt(s, 10, 64)` (also the integer fast path of
`strconv.Atoi` on a 64-bit platform): optional sign, a non-empty run
of decimal digits, `none` outside `[minInt64, maxInt64]` (Go reports a
range error, which every caller in the source treats as failure). -/
def goParseInt64? (s : String) : Option Int :=
  let (neg, digits) :=
    match s.data with
    | '-' :: rest => (true, rest)
    | '+' :: rest => (false, rest)
    | cs => (false, cs)
  match digitsToNat? digits with
  | none => none
  | some n =>
      let v : Int := if neg then -(n : Int) else (n : Int)
      if minInt64 ≤ v ∧ v ≤ maxInt64 then some v else none

/-- Model of `strconv.ParseFloat(s, 64)` restricted to plain decimal
literals `[+-]digits[.digits]` (with at least one digit on each
present side), returning the decimal mantissa and the number of
fractional digits.  The source only ever asks whether the parse
succeeds before falling through to later branches; no theorem depends
on float arithmetic, exponent notation, or `Inf`/`NaN` forms. -/
def goParseFloat? (s : String) : Option (Int × Nat) :=
  let (neg, body) :=
    match s.data with
    | '-' :: rest => (true, rest)
    | '+' :: rest => (false, rest)
    | cs => (false, cs)
  let intPart := body.takeWhile isDigitCh
  let restPart := body.drop intPart.length
  let signed : Nat → Int := fun n => if neg then -(n : Int) else (n : Int)
  match restPart with
  | [] =>
      match digitsToNat? intPart with
      | some n => some (signed n, 0)
      | none => none
  | '.' :: frac =>
      if intPart = [] then none
      else match digitsToNat? (intPart ++ frac) with
        | some n => if frac = [] then none else some (signed n, frac.length)
        | none => none
  | _ => none

/-- `strconv.ParseBool`: the exact vocabulary accepted by the Go
standard library. -/
def goParseBool? (s : String) : Option Bool :=
  if s = "1" ∨ s = "t" ∨ s = "T" ∨ s = "TRUE" ∨ s = "true" ∨ s = "True" then some true
  else if s = "0" ∨ s = "f" ∨ s = "F" ∨ s = "FALSE" ∨ s = "false" ∨ s = "False" then some false
  else none

/-! ## INI value processing (`src/ini_parser.go`) -/

/-- Character-list worker for `processEscapeSequences`: `\n \t \r \\
\" \' \0` are substituted; an unrecognized escape keeps the backslash
(and the following character is then processed on its own), matching
the byte loop of the source. -/
def escapeAux : List Char → List Char
  | [] => []
  | '\\' :: c :: rest =>
      if c = 'n' then '\n' :: escapeAux rest
      else if c = 't' then '\t' :: escapeAux rest
      else if c = 'r' then '\r' :: escapeAux rest
      else if c = '\\' then '\\' :: escapeAux rest
      else if c = '"' then '"' :: escapeAux rest
      else if c = '\'' then '\'' :: escapeAux rest
      else if c = '0' then '\x00' :: escapeAux rest
      else '\\' :: escapeAux (c :: rest)
  | c :: rest => c :: escapeAux rest

/-- `processEscapeSequences` from `src/ini_parser.go`: returns the
input unchanged when it contains no backslash, otherwise substitutes
escape sequences. -/
def processEscapeSequences (value : String) : String :=
  if strContainsCh value '\\' then ⟨escapeAux value.data⟩ else value

/-- The fully-quote-wrapped test of `processINIValue`: a value of
length ≥ 2 whose first and last characters are both `"` or both `'`
is stripped of its quotes. -/
def unquote? (value : String) : Option String :=
  match value.data with
  | [] => none
  | [_] => none
  | c :: rest =>
      match rest.reverse with
      | [] => none
      | d :: mid =>
          if (c = '"' ∧ d = '"') ∨ (c = '\'' ∧ d = '\'') then some ⟨mid.reverse⟩
          else none

/-- The case-insensitive boolean vocabulary of the INI parser
(deliberately broader than `strconv.ParseBool`): input is the
`strings.ToLower` image of the raw value. -/
def iniBool? (lower : String) : Option Bool :=
  if lower = "true" ∨ lower = "yes" ∨ lower = "on" ∨ lower = "1" then some true
  else if lower = "false" ∨ lower = "no" ∨ lower = "off" ∨ lower = "0" then some false
  else none

/-- The integer-width decision of `processINIValue`:
`intVal >= int64(^uint(0)>>1) || intVal <= -int64(^uint(0)>>1)-1`
stores the value as `int64`, everything else as the native `int`
(64-bit platform). -/
def iniIntWidth (n : Int) : Value :=
  if n ≥ maxInt64 ∨ n ≤ -maxInt64 - 1 then .vInt64 n else .vInt n

/-- `processINIValue` from `src/ini_parser.go`: ordered inference —
quoted string, boolean vocabulary, base-10 integer (with the width
decision), float, comma-separated list, plain string with escape
substitution. -/
def processINIValue (value : String) : Value :=
  if value = "" then .vStr ""
  else match unquote? value with
  | some inner => .vStr (processEscapeSequences inner)
  | none =>
    match iniBool? (asciiLower value) with
    | some b => .vBool b
    | none =>
      match goParseInt64? value with
      | some n => iniIntWidth n
      | none =>
        match goParseFloat? value with
        | some (m, e) => .vFloat m e
        | none =>
          if strContainsCh value ',' then
            let parts := (((splitOnCh ',' value).map goTrim).filter
              (fun p => p ≠ "")).map processEscapeSequences
            if parts.length > 1 then .vList parts
            else .vStr (processEscapeSequences value)
          else .vStr (processEscapeSequences value)

/-! ## INI line scanning (`parseINI` and `removeInlineComments`) -/

/-- Character-list worker for `removeInlineComments`: tracks quote
state (`quote = none` outside quotes, `some c` inside `c`-quotes); a
backslash consumes the next character; an unquoted `#` or `;`
truncates.  `acc` holds the scanned prefix reversed. -/
def inlineCommentAux : List Char → Option Char → List Char → Option (List Char)
  | [], _, _ => none
  | '\\' :: c :: rest, quote, acc => inlineCommentAux rest quote (c :: '\\' :: acc)
  | c :: rest, quote, acc =>
      match quote with
      | none =>
          if c = '"' ∨ c = '\'' then inlineCommentAux rest (some c) (c :: acc)
          else if c = '#' ∨ c = ';' then some acc.reverse
          else inlineCommentAux rest none (c :: acc)
      | some q =>
          if c = q then inlineCommentAux rest none (c :: acc)
          else inlineCommentAux rest (some q) (c :: acc)

/-- `removeInlineComments` from `src/ini_parser.go`: truncates at the
first unquoted, unescaped `#` or `;` and trims the kept prefix;
returns the line unchanged when no comment starts. -/
def removeInlineComments (line : String) : String :=
  match inlineCommentAux line.data none [] with
  | some kept => goTrim ⟨kept⟩
  | none => line

/-- The multi-line-continuation join of `parseINI`: starting from the
line at the current index, while the trimmed line ends in a backslash
and lines remain, strip the backslash and append the next trimmed
line with a single space (an empty next line adds nothing).  `rest`
is the list of lines after the current index; the source advances
only a local copy of the loop index, so the consumed lines are NOT
skipped by the enclosing scan. -/
def effLine (l : String) : List String → String
  | [] => l
  | n :: rs =>
      if trailsWith (goTrim l) "\\" then
        let l' := goTrim (dropTrail (goTrim l) "\\")
        let nl := goTrim n
        let j := if nl ≠ "" then (if l' ≠ "" then l' ++ " " ++ nl else nl) else l'
        effLine j rs
      else l

/-- Where key/value lines are currently stored: the root map, a named
section map, or nowhere (after an invalid section header set
`currentMap = nil`). -/
inductive IniTarget where
  | root : IniTarget
  | sect : String → IniTarget
  | invalid : IniTarget
deriving DecidableEq

/-- Scanner state of `parseINI`: the result map built so far and the
current storage target (modelling the `currentMap` pointer). -/
structure IniState where
  res : Fields
  tgt : IniTarget

/-- Store a processed key/value pair into the current target map;
dropped when the target is invalid.  When the target is a section,
the invariant maintained by `iniSection` guarantees the section entry
is a map. -/
def iniStore (st : IniState) (k : String) (v : Value) : IniState :=
  match st.tgt with
  | .root => ⟨mapSet st.res k v, st.tgt⟩
  | .sect s =>
      match mapGet st.res s with
      | some (.vMap m) => ⟨mapSet st.res s (.vMap (mapSet m k v)), st.tgt⟩
      | _ => st
  | .invalid => st

/-- Enter a valid section header: reuse the existing nested map under
`name`, or (re)create an empty map there when absent or holding a
non-map value. -/
def iniSection (st : IniState) (name : String) : IniState :=
  match mapGet st.res name with
  | some (.vMap _) => ⟨st.res, .sect name⟩
  | _ => ⟨mapSet st.res name (.vMap .nil), .sect name⟩

/-- One iteration of the `parseINI` line loop on the (already joined)
line: skip blanks and whole-line comments; handle section headers
(empty name ignored WITHOUT changing the target, a name containing
any of `[ ] # ; =` invalidates the target); strip inline comments;
split at the first `=`; validate the key; store the processed value. -/
def iniStep (st : IniState) (raw : String) : IniState :=
  let line := goTrim raw
  if line = "" ∨ leadsWith line "#" ∨ leadsWith line ";" then st
  else if leadsWith line "[" ∧ trailsWith line "]" then
    let name := goTrim ⟨(line.data.drop 1).reverse.drop 1 |>.reverse⟩
    if name = "" then st
    else if strContainsAny name ['[', ']', '#', ';', '='] then ⟨st.res, .invalid⟩
    else iniSection st name
  else
    let pl := removeInlineComments line
    if pl = "" then st
    else
      match cutEq pl with
      | none => st
      | some (k0, v0) =>
          let k := goTrim k0
          let v := goTrim v0
          if k = "" ∨ strContainsAny k ['[', ']', '#', ';', '='] then st
          else iniStore st k (processINIValue v)

/-- The `for i, line := range lines` loop of `parseINI`: each index is
visited (continuation lines included), and the effective line at each
index is the continuation join starting there. -/
def iniLines (st : IniState) : List String → IniState
  | [] => st
  | l :: rest => iniLines (iniStep st (effLine l rest)) rest

/-- `parseINI` from `src/ini_parser.go` (on a non-nil receiver):
split on newlines and scan. -/
def parseINI (content : String) : Fields :=
  (iniLines ⟨.nil, .root⟩ (splitOnCh '\n' content)).res

/-! ## Dot-path resolution and mutation
(`src/unnamed/part_008` = `nested.go`, `src/setters.go`) -/

/-- `getNestedValueUnsafe` from `nested.go`, after the key has been
split on `.`: the final segment is looked up directly; every earlier
segment must resolve to a nested map or the lookup fails. -/
def getNestedValue : Fields → List String → Option Value
  | _, [] => none
  | m, [p] => mapGet m p
  | m, p :: rest =>
      match mapGet m p with
      | some (.vMap inner) => getNestedValue inner rest
      | _ => none

/-- `getNestedValueUnsafe` on the un-split dotted key. -/
def getNestedValueD (m : Fields) (key : String) : Option Value :=
  getNestedValue m (splitDots key)

/-- `hasNestedKeyUnsafe` from `nested.go`. -/
def hasNestedKey (m : Fields) (key : String) : Bool :=
  (getNestedValueD m key).isSome

/-- `setNestedValueUnsafe` from `src/setters.go`, after the key has
been split: the final segment is assigned directly; an intermediate
segment holding a non-map value (or nothing) is replaced by a fresh
empty map so the walk can continue. -/
def setNestedValue : Fields → List String → Value → Fields
  | m, [], _ => m
  | m, [p], v => mapSet m p v
  | m, p :: rest, v =>
      match mapGet m p with
      | some (.vMap inner) => mapSet m p (.vMap (setNestedValue inner rest v))
      | _ => mapSet m p (.vMap (setNestedValue .nil rest v))

/-- `Set` from `src/setters.go` (on a non-nil receiver): a key
containing a dot always goes through nested-path creation, any other
key is a plain top-level assignment. -/
def set (m : Fields) (key : String) (v : Value) : Fields :=
  if strContainsCh key '.' then setNestedValue m (splitDots key) v
  else mapSet m key v

/-- `applyDefaultsUnsafe` from `src/helpers.go`: each default entry
whose key (flat, or nested when dotted) is absent is inserted; a
present key is skipped.  Go iterates the defaults map in unspecified
order; the embedding folds over a list of entries. -/
def applyDefaults (m : Fields) (defaults : List (String × Value)) : Fields :=
  defaults.foldl
    (fun acc kv =>
      if strContainsCh kv.1 '.' then
        if hasNestedKey acc kv.1 then acc else setNestedValue acc (splitDots kv.1) kv.2
      else
        match mapGet acc kv.1 with
        | some _ => acc
        | none => mapSet acc kv.1 kv.2)
    m

/-! ## Read operations (`src/config.go`, `src/unnamed/part_005` =
`getters.go`) -/

/-- `Has` from `src/config.go` (non-nil receiver): literal flat match
first; a dotted key falls back to nested traversal. -/
def hasKey (m : Fields) (key : String) : Bool :=
  match mapGet m key with
  | some _ => true
  | none => if strContainsCh key '.' then hasNestedKey m key else false

/-- The generic stringification `fmt.Sprintf("%v", value)` used by
`GetString` for non-string values.  The string/bool/int/nil renderings
are exact; float, list and map renderings are schematic (no theorem
depends on them). -/
def goSprintV : Value → String
  | .vStr s => s
  | .vInt n => toString n
  | .vInt64 n => toString n
  | .vFloat mant e => toString mant ++ "e-" ++ toString e
  | .vBool b => if b then "true" else "false"
  | .vList l => "[" ++ String.intercalate " " l ++ "]"
  | .vMap _ => "map[…]"
  | .vNull => "<nil>"

/-- The value-to-string conversion of `GetString`: strings pass
through, anything else is `%v`-rendered. -/
def strConvGo (v : Value) : String :=
  match v with
  | .vStr s => s
  | _ => goSprintV v

/-- `GetString` from `getters.go` (non-nil receiver): a flat match
returns immediately (converted); otherwise a dotted key tries the
nested lookup; otherwise the optional default, or `""`. -/
def getString (m : Fields) (key : String) (dflt : List String) : String :=
  match mapGet m key with
  | some v => strConvGo v
  | none =>
      if strContainsCh key '.' then
        match getNestedValueD m key with
        | some v => strConvGo v
        | none => dflt.headD ""
      else dflt.headD ""

/-- The boolean extraction shared by the flat and nested branches of
`GetBool`: a stored `bool` is returned, a stored string is parsed
with `strconv.ParseBool`, anything else falls through (`none`). -/
def boolOfValue? : Option Value → Option Bool
  | some (.vBool b) => some b
  | some (.vStr s) => goParseBool? s
  | _ => none

/-- `GetBool` from `getters.go` (non-nil receiver).  Note the control
flow of the source: when the flat value exists but is neither a bool
nor a parseable string, execution FALLS THROUGH to the nested lookup
before the default applies. -/
def getBool (m : Fields) (key : String) (dflt : List Bool) : Bool :=
  match boolOfValue? (mapGet m key) with
  | some b => b
  | none =>
      match (if strContainsCh key '.' then boolOfValue? (getNestedValueD m key) else none) with
      | some b => b
      | none => dflt.headD false

/-- `GetNestedMap` from `getters.go` (non-nil receiver): resolves the
dotted path directly through `getNestedValueUnsafe` (NO flat-first
step) and returns the nested map (the source returns a shallow copy,
identity in the pure model); `none` models the `nil` result. -/
def getNestedMap (m : Fields) (key : String) : Option Fields :=
  match getNestedValueD m key with
  | some (.vMap inner) => some inner
  | _ => none

/-! ## Load pipeline (`src/config.go` `LoadFromFile`,
`src/helpers.go`) -/

/-- `loadFromEnvironmentUnsafe` from `src/helpers.go`: every existing
top-level key whose environment value is non-empty is overwritten
with that string; no new keys appear.  `env k = ""` models an unset
variable (`os.Getenv` returns `""`). -/
def loadFromEnvironment (env : String → String) : Fields → Fields
  | .nil => .nil
  | .cons k v rest =>
      .cons k (if env k ≠ "" then .vStr (env k) else v) (loadFromEnvironment env rest)

/-- `validateRequiredKeysUnsafe` from `src/helpers.go`: returns the
first required key that is present neither flatly nor (for dotted
keys) via nested traversal. -/
def validateRequiredKeys (m : Fields) : List String → Option String
  | [] => none
  | k :: rest =>
      if (mapGet m k).isSome then validateRequiredKeys m rest
      else if strContainsCh k '.' ∧ hasNestedKey m k then validateRequiredKeys m rest
      else some k

/-- The errors `LoadFromFile` can report after parsing. -/
inductive LoadError where
  | requiredKeyMissing : String → LoadError
  | validationFailed : String → LoadError
deriving DecidableEq

/-- The options of `LoadFromFile` that matter after parsing.  The
validation callback returns `some msg` to report a failure on the
(defensively copied) merged data. -/
structure LoadOpts where
  ignoreEnv : Bool
  requiredKeys : List String
  defaultValues : List (String × Value)
  validationFunc : Option (Fields → Option String)

/-- The merged tree produced by `LoadFromFile` after parsing: the
parsed data, then defaults for absent keys, then the environment
overlay unless suppressed. -/
def mergedData (env : String → String) (configData : Fields) (opts : LoadOpts) : Fields :=
  let d := applyDefaults configData opts.defaultValues
  if opts.ignoreEnv then d else loadFromEnvironment env d

/-- The locked tail of `LoadFromFile` (`src/config.go` lines 99-129):
the store content is REPLACED by the parsed data (`c.data =
configData`) before defaults, environment overlay and the two
validation steps run; a validation failure returns the error with the
replaced data still in place.  `prior` is the store content before
the call; the source discards it at this point. -/
def loadFromFileCommit (env : String → String) (_prior : Fields)
    (configData : Fields) (opts : LoadOpts) : Fields × Option LoadError :=
  let d := mergedData env configData opts
  match validateRequiredKeys d opts.requiredKeys with
  | some k => (d, some (.requiredKeyMissing k))
  | none =>
      match opts.validationFunc with
      | some f =>
          match f d with
          | some msg => (d, some (.validationFailed msg))
          | none => (d, none)
      | none => (d, none)

/-! ## Nil-receiver wrappers (`*Config` methods; a `nil` receiver is
`none`).  Methods that guard `c == nil` degrade; methods that reach
`c.mu.Lock()` on a nil receiver panic with a nil-pointer dereference,
modelled by `GoOutcome.nilPanic`. -/

/-- Outcome of calling a method that may dereference a nil receiver. -/
inductive GoOutcome (α : Type) where
  | ok : α → GoOutcome α
  | nilPanic : GoOutcome α
deriving DecidableEq

/-- A `*Config` handle: `none` is a nil pointer, `some m` a config
whose `data` map is `m`. -/
def ConfigH : Type := Option Fields

/-- `Set` (`src/setters.go`): guarded, a nil receiver is a no-op. -/
def setGo (c : ConfigH) (key : String) (v : Value) : ConfigH :=
  match c with
  | none => none
  | some m => some (set m key v)

/-- `Has` (`src/config.go`): guarded, `false` on nil. -/
def hasGo (c : ConfigH) (key : String) : Bool :=
  match c with
  | none => false
  | some m => hasKey m key

/-- `Keys` (`src/config.go`): guarded, `nil` slice (empty list) on nil. -/
def keysGo (c : ConfigH) : List String :=
  match c with
  | none => []
  | some m => fieldsKeys m

/-- `Size` (`src/config.go`): guarded, `0` on nil. -/
def sizeGo (c : ConfigH) : Nat :=
  match c with
  | none => 0
  | some m => fieldsLen m

/-- `IsEmpty` (`src/config.go`): guarded, `true` on nil. -/
def isEmptyGo (c : ConfigH) : Bool :=
  sizeGo c = 0

/-- `GetAll` (`getters.go`): guarded, `nil` map on nil, defensive
copy (identity in the pure model) otherwise. -/
def getAllGo (c : ConfigH) : Option Fields :=
  match c with
  | none => none
  | some m => some m

/-- `GetString` (`getters.go`): guarded, default/`""` on nil. -/
def getStringGo (c : ConfigH) (key : String) (dflt : List String) : String :=
  match c with
  | none => dflt.headD ""
  | some m => getString m key dflt

/-- `GetBool` (`getters.go`): guarded, default/`false` on nil. -/
def getBoolGo (c : ConfigH) (key : String) (dflt : List Bool) : Bool :=
  match c with
  | none => dflt.headD false
  | some m => getBool m key dflt

/-- `Clear` (`src/config.go` lines 181-186): NOT nil-guarded — the
method immediately executes `c.mu.Lock()`, which dereferences the nil
receiver and panics; on a live receiver the data map is replaced by a
fresh empty map. -/
def clearGo (c : ConfigH) : GoOutcome ConfigH :=
  match c with
  | none => .nilPanic
  | some _ => .ok (some .nil)

/-- `LoadFromMap` (`src/config.go` lines 173-178): NOT nil-guarded —
`c.mu.Lock()` panics on a nil receiver; otherwise `maps.Copy` merges
the argument's entries into the existing data (iteration order of the
Go map is immaterial to the resulting content). -/
def loadFromMapGo (c : ConfigH) (entries : List (String × Value)) : GoOutcome ConfigH :=
  match c with
  | none => .nilPanic
  | some m => .ok (some (entries.foldl (fun acc kv => mapSet acc kv.1 kv.2) m))

/-! ## Basic map lemmas -/

/-- Reading back the key just written. -/
theorem mapGet_mapSet_self : ∀ (m : Fields) (k : String) (v : Value),
    mapGet (mapSet m k v) k = some v
  | .nil, k, v => by simp [mapSet, mapGet]
  | .cons k' w rest, k, v => by
      by_cases h : k' = k
      · simp [mapSet, mapGet, h]
      · simp [mapSet, mapGet, h, mapGet_mapSet_self rest k v]

/-- Writing one key leaves every other key unchanged. -/
theorem mapGet_mapSet_ne : ∀ (m : Fields) (k k' : String) (v : Value),
    k ≠ k' → mapGet (mapSet m k v) k' = mapGet m k'
  | .nil, k, k', v, h => by simp [mapSet, mapGet, h]
  | .cons k0 w rest, k, k', v, h => by
      by_cases h0 : k0 = k
      · subst h0
        simp [mapSet, mapGet, h]
      · simp [mapSet, mapGet, h0, mapGet_mapSet_ne rest k k' v h]

/-- A nested write with at least two remaining segments only touches
the entry of the first segment. -/
theorem mapGet_setNestedValue_ne (m : Fields) (p : String) (rest : List String)
    (v : Value) (k : String) (h : p ≠ k) :
    mapGet (setNestedValue m (p :: rest) v) k = mapGet m k := by
  cases rest with
  | nil => simpa [setNestedValue] using mapGet_mapSet_ne m p k v h
  | cons q rs =>
      cases hg : mapGet m p with
      | none => simpa [setNestedValue, hg] using mapGet_mapSet_ne m p k _ h
      | some w =>
          cases w <;>
            simpa [setNestedValue, hg] using mapGet_mapSet_ne m p k _ h

/-- The non-map-intermediate branch of `setNestedValueUnsafe`: a
non-map value at a non-final segment is discarded and replaced by a
fresh map built for the remaining path. -/
theorem setNestedValue_discards_non_map (m : Fields) (p q : String)
    (rest : List String) (w v : Value) (hw : mapGet m p = some w)
    (hnm : isVMap w = false) :
    setNestedValue m (p :: q :: rest) v
      = mapSet m p (.vMap (setNestedValue .nil (q :: rest) v)) := by
  cases w <;> simp_all [setNestedValue, isVMap, hw]

/-! ## Claim C3 — nil-receiver tolerance -/

/-- C3: the spec's null-object rule says every listed operation on an
absent/unconstructed (nil) instance degrades to the zero value, but
`Clear` and `LoadFromMap` (`src/config.go` lines 181-186 and 173-178)
have no nil guard and execute `c.mu.Lock()` on the nil receiver,
which panics; the guarded operations do degrade as specified. -/
theorem nil_receiver_clear_loadFromMap_panic :
    clearGo none = .nilPanic
    ∧ loadFromMapGo none [("k", .vStr "v")] = .nilPanic
    ∧ setGo none "k" (.vStr "v") = none
    ∧ hasGo none "k" = false
    ∧ keysGo none = []
    ∧ sizeGo none = 0
    ∧ isEmptyGo none = true
    ∧ getAllGo none = none
    ∧ getStringGo none "k" [] = ""
    ∧ getBoolGo none "k" [] = false :=
  ⟨rfl, rfl, rfl, rfl, rfl, rfl, rfl, rfl, rfl, rfl⟩

/-! ## Claim C7 — boolean getter vocabulary -/

/-- C7 counterexample: the claim says the boolean getter recognizes
exactly `true`/`false`/`1`/`0` case-insensitively and returns the
default (`false`) for every other stored string, but `GetBool` uses
`strconv.ParseBool`: the stored string `"t"` yields `true`, while the
case-mixed `"tRue"` yields `false`. -/
theorem getBool_parseBool_vocab_cex :
    getBool (Fields.cons "k" (.vStr "t") .nil) "k" [] = true
    ∧ getBool (Fields.cons "k" (.vStr "tRue") .nil) "k" [] = false :=
  ⟨rfl, rfl⟩

/-- C7 (amended): on a stored string, `GetBool` returns exactly what
`strconv.ParseBool` accepts — the twelve strings `1 t T TRUE true
True 0 f F FALSE false False` — and the default `false` otherwise; the
INI parser maps the unquoted value `yes` to boolean `true`, while
`GetBool` on the stored string `"yes"` returns `false` (the
parser/getter vocabulary asymmetry). -/
theorem getBool_vocabulary_asymmetry :
    (∀ s : String,
      getBool (Fields.cons "k" (.vStr s) .nil) "k" [] = (goParseBool? s).getD false)
    ∧ (∀ s : String, goParseBool? s = some true
        ↔ (s = "1" ∨ s = "t" ∨ s = "T" ∨ s = "TRUE" ∨ s = "true" ∨ s = "True"))
    ∧ processINIValue "yes" = .vBool true
    ∧ getBool (Fields.cons "k" (.vStr "yes") .nil) "k" [] = false := by
  refine ⟨fun s => ?_, fun s => ?_, rfl, rfl⟩
  · cases h : goParseBool? s <;>
      simp [getBool, boolOfValue?, mapGet, h, strContainsCh]
  · unfold goParseBool?
    split
    · simp_all
    · split <;> simp_all

/-! ## Claim C8 — INI section invalidation -/

/-- C8 counterexample: the claim says a section header with an EMPTY
name invalidates the active section so subsequent key/value lines are
discarded, but `parseINI` ignores an empty-name header without
touching the current target: after `[]` the line `b=y` is still
stored (at the root). -/
theorem parseINI_empty_section_cex :
    parseINI "[]\nb=y" = Fields.cons "b" (.vStr "y") .nil := rfl

/-- C8 (amended): a section header whose name contains one of the
forbidden characters `[ ] # ; =` invalidates the active section —
subsequent key/value lines are parsed but discarded until the next
valid header — while a header with an EMPTY name is ignored without
changing the active target, so subsequent lines keep landing in the
previously selected map. -/
theorem parseINI_section_invalidation :
    parseINI "a=x\n[ba#d]\nb=y\n[ok]\nc=z"
      = Fields.cons "a" (.vStr "x")
          (Fields.cons "ok" (.vMap (Fields.cons "c" (.vStr "z") .nil)) .nil)
    ∧ parseINI "[s]\na=x\n[]\nb=y"
      = Fields.cons "s"
          (.vMap (Fields.cons "a" (.vStr "x") (Fields.cons "b" (.vStr "y") .nil))) .nil :=
  ⟨rfl, rfl⟩

/-! ## Claim C9 — INI multi-line continuation -/

/-- C9 counterexample: the claim says lines consumed by the
continuation join are not additionally parsed as standalone lines,
but the source only advances a local copy of the range index: after
joining `a=1 \` with `b=2` into the single value `1 b=2`, the line
`b=2` is visited again and stored on its own. -/
theorem parseINI_continuation_reparse_cex :
    mapGet (parseINI "a=1 \\\nb=2") "b" = some (.vInt 2)
    ∧ mapGet (parseINI "a=1 \\\nb=2") "a" = some (.vStr "1 b=2") :=
  ⟨rfl, rfl⟩

/-- C9 (amended): a trimmed line ending in a backslash is joined with
the next trimmed line using a single space, repeated until no
trailing backslash remains or input is exhausted; the consumed
continuation lines are, however, revisited by the scan as standalone
lines (harmless when, like the bare `   2`, they contain no `=`):
`a=1 \` + `   2` parses to the single entry `a = "1 2"`, while
`a=1 \` + `b=2` parses to `a = "1 b=2"` AND a standalone `b = 2`. -/
theorem parseINI_continuation_join :
    parseINI "a=1 \\\n   2" = Fields.cons "a" (.vStr "1 2") .nil
    ∧ parseINI "a=1 \\\nb=2"
      = Fields.cons "a" (.vStr "1 b=2") (Fields.cons "b" (.vInt 2) .nil) :=
  ⟨rfl, rfl⟩

/-! ## Claim C10 — INI integer width boundary -/

/-- C10 counterexample: the claim says the most-positive native
machine-word integer is stored at the narrower native width, but the
width test of `processINIValue` uses `>=`, so `9223372036854775807`
(= `2^63 - 1`) is stored as `int64`, not `int`. -/
theorem iniInt_width_boundary_cex :
    processINIValue "9223372036854775807" = .vInt64 9223372036854775807
    ∧ processINIValue "9223372036854775807" ≠ .vInt 9223372036854775807 := by
  refine ⟨rfl, fun h => ?_⟩
  rw [show processINIValue "9223372036854775807" = .vInt64 9223372036854775807 from rfl] at h
  exact Value.noConfusion h

/-- C10 (amended): base-10 integer literals strictly between the
64-bit bounds are stored as the native `int`; the two boundary values
`2^63 - 1` and `-2^63` themselves are stored as `int64` (the `>=` /
`<=` comparisons of the source include the bounds); literals outside
the 64-bit range fail the integer parse altogether (and fall through
to the float branch), so no value ever "exceeds" the range. -/
theorem iniInt_width_amended :
    processINIValue "9223372036854775807" = .vInt64 maxInt64
    ∧ processINIValue "-9223372036854775808" = .vInt64 minInt64
    ∧ processINIValue "9223372036854775806" = .vInt 9223372036854775806
    ∧ processINIValue "-9223372036854775807" = .vInt (-9223372036854775807)
    ∧ goParseInt64? "9223372036854775808" = none
    ∧ (∀ n : Int, minInt64 < n → n < maxInt64 → iniIntWidth n = .vInt n) := by
  refine ⟨rfl, rfl, rfl, rfl, rfl, fun n h1 h2 => ?_⟩
  have hcond : ¬(n ≥ maxInt64 ∨ n ≤ -maxInt64 - 1) := by
    simp only [maxInt64, minInt64] at *
    omega
  simp [iniIntWidth, hcond]

/-- Witness for the amended C10 theorem: the literal `5` keeps the
native width. -/
theorem iniInt_width_amended_witness : iniIntWidth 5 = .vInt 5 :=
  iniInt_width_amended.2.2.2.2.2 5 (by norm_num [minInt64]) (by norm_num [maxInt64])

/-! ## Claim C1 — all-or-nothing file loads -/

/-- C1 counterexample: the claim says every failing `LoadFromFile`
leaves the store's previous content intact, but the source replaces
`c.data` with the parsed tree BEFORE validating required keys: with
prior content `{old: "1"}`, parsed content `{new: "2"}` and
`RequiredKeys = ["x"]`, the call reports `RequiredKeyMissing` while
the store now holds `{new: "2"}`, not the prior content. -/
theorem loadCommit_error_replaces_store_cex :
    (loadFromFileCommit (fun _ => "") (Fields.cons "old" (.vStr "1") .nil)
        (Fields.cons "new" (.vStr "2") .nil)
        ⟨true, ["x"], [], none⟩).2 = some (.requiredKeyMissing "x")
    ∧ (loadFromFileCommit (fun _ => "") (Fields.cons "old" (.vStr "1") .nil)
        (Fields.cons "new" (.vStr "2") .nil)
        ⟨true, ["x"], [], none⟩).1 = Fields.cons "new" (.vStr "2") .nil
    ∧ (loadFromFileCommit (fun _ => "") (Fields.cons "old" (.vStr "1") .nil)
        (Fields.cons "new" (.vStr "2") .nil)
        ⟨true, ["x"], [], none⟩).1 ≠ Fields.cons "old" (.vStr "1") .nil := by
  refine ⟨rfl, rfl, fun h => ?_⟩
  have h' := congrArg (fun f => mapGet f "old") h
  exact Option.noConfusion h'

/-- C1 (amended): failures detected before the locked tail (missing
file, unsupported format, JSON/YAML parse errors) return before any
mutation, but once parsing succeeds the store content is replaced
unconditionally: the outcome of the locked tail never depends on the
prior content, and a required-key failure returns the error with the
merged tree (parsed data + defaults + environment overlay) — not the
prior content — left in the store. -/
theorem loadCommit_discards_prior :
    (∀ (env : String → String) (prior prior' cfg : Fields) (opts : LoadOpts),
        loadFromFileCommit env prior cfg opts = loadFromFileCommit env prior' cfg opts)
    ∧ (∀ (env : String → String) (prior cfg : Fields) (opts : LoadOpts) (k : String),
        validateRequiredKeys (mergedData env cfg opts) opts.requiredKeys = some k →
        loadFromFileCommit env prior cfg opts
          = (mergedData env cfg opts, some (.requiredKeyMissing k))) := by
  refine ⟨fun env prior prior' cfg opts => rfl,
          fun env prior cfg opts k h => ?_⟩
  simp [loadFromFileCommit, h]

/-- Witness for the amended C1 theorem at a concrete failing load. -/
theorem loadCommit_discards_prior_witness :
    loadFromFileCommit (fun _ => "") Fields.nil
        (Fields.cons "port" (.vInt 80) .nil) ⟨true, ["host"], [], none⟩
      = (Fields.cons "port" (.vInt 80) .nil, some (.requiredKeyMissing "host")) :=
  loadCommit_discards_prior.2 (fun _ => "") Fields.nil
    (Fields.cons "port" (.vInt 80) .nil) ⟨true, ["host"], [], none⟩ "host" rfl

/-! ## Claim C2 — defaults never override parsed values -/

/-- C2 counterexample: the claim says already-parsed values always
take precedence over defaults and that values along the path of a
present default key are retained, but `applyDefaultsUnsafe` writes an
ABSENT dotted default through `setNestedValueUnsafe`, which discards
non-map values on intermediate segments: a single default `a.b = 1`
destroys the parsed scalar at `a`, and with parsed `{a: {b: 1}}` the
default list `[a.b ↦ 99, a.b.x ↦ 5]` (in either iteration order)
replaces the parsed value at the PRESENT key `a.b` by a map. -/
theorem applyDefaults_clobbers_parsed_cex :
    applyDefaults (Fields.cons "a" (.vStr "x") .nil) [("a.b", .vInt 1)]
      = Fields.cons "a" (.vMap (Fields.cons "b" (.vInt 1) .nil)) .nil
    ∧ hasNestedKey (Fields.cons "a" (.vMap (Fields.cons "b" (.vInt 1) .nil)) .nil) "a.b"
      = true
    ∧ getNestedValueD
        (applyDefaults (Fields.cons "a" (.vMap (Fields.cons "b" (.vInt 1) .nil)) .nil)
          [("a.b", .vInt 99), ("a.b.x", .vInt 5)]) "a.b"
      = some (.vMap (Fields.cons "x" (.vInt 5) .nil))
    ∧ getNestedValueD
        (applyDefaults (Fields.cons "a" (.vMap (Fields.cons "b" (.vInt 1) .nil)) .nil)
          [("a.b.x", .vInt 5), ("a.b", .vInt 99)]) "a.b"
      = some (.vMap (Fields.cons "x" (.vInt 5) .nil)) :=
  ⟨rfl, rfl, rfl, rfl⟩

/-- C2 (amended): a default entry whose key is present under the
code's presence test (nested traversal for dotted keys, flat lookup
otherwise) writes nothing, so if every default key is present the
defaults step is the identity; but an ABSENT dotted default key is
written through nested-path creation, which can discard parsed
non-map values on its path (and a dotted key present only as a flat
literal counts as absent), so parsed values do not always survive
the defaults step. -/
theorem applyDefaults_present_skip :
    ∀ (m : Fields) (ds : List (String × Value)),
      (∀ kv ∈ ds, (if strContainsCh kv.1 '.' then hasNestedKey m kv.1
                   else (mapGet m kv.1).isSome) = true) →
      applyDefaults m ds = m := by
  intro m ds
  induction ds with
  | nil => intro _; rfl
  | cons kv rest ih =>
      intro h
      have hkv := h kv (by simp)
      have hrest : ∀ kv' ∈ rest,
          (if strContainsCh kv'.1 '.' then hasNestedKey m kv'.1
           else (mapGet m kv'.1).isSome) = true :=
        fun kv' hm => h kv' (by simp [hm])
      have hstep :
          (if strContainsCh kv.1 '.' then
            if hasNestedKey m kv.1 then m else setNestedValue m (splitDots kv.1) kv.2
          else
            match mapGet m kv.1 with
            | some _ => m
            | none => mapSet m kv.1 kv.2) = m := by
        by_cases hd : strContainsCh kv.1 '.'
        · simp only [hd, if_true] at hkv ⊢
          simp [hkv]
        · simp only [hd] at hkv ⊢
          simp only [if_false, Bool.false_eq_true, if_neg]
          obtain ⟨v, hv⟩ := Option.isSome_iff_exists.mp hkv
          simp [hv]
      calc applyDefaults m (kv :: rest)
          = applyDefaults
              (if strContainsCh kv.1 '.' then
                if hasNestedKey m kv.1 then m else setNestedValue m (splitDots kv.1) kv.2
              else
                match mapGet m kv.1 with
                | some _ => m
                | none => mapSet m kv.1 kv.2) rest := rfl
        _ = applyDefaults m rest := by rw [hstep]
        _ = m := ih hrest

/-- Witness for the amended C2 theorem: both a present nested default
key and a present flat default key are skipped. -/
theorem applyDefaults_present_skip_witness :
    applyDefaults (Fields.cons "a" (.vMap (Fields.cons "b" (.vInt 1) .nil)) .nil)
      [("a.b", .vInt 99), ("a", .vStr "zz")]
      = Fields.cons "a" (.vMap (Fields.cons "b" (.vInt 1) .nil)) .nil := by
  refine applyDefaults_present_skip _ _ ?_
  intro kv hkv
  simp only [List.mem_cons, List.not_mem_nil, or_false] at hkv
  rcases hkv with rfl | rfl <;> rfl

/-! ## Claim C4 — Set on dotted keys vs existing flat entries -/

/-- C4 counterexample: the claim says a dotted `Set` updates an
existing flat entry instead of creating a nested path, but `Set`
never consults the flat map for dotted keys: with the flat literal
entry `a.b ↦ 1` in the store, `Set("a.b", 2)` creates the nested
`a → {b: 2}` and leaves the flat entry holding `1`. -/
theorem set_dotted_ignores_flat_cex :
    set (Fields.cons "a.b" (.vInt 1) .nil) "a.b" (.vInt 2)
      = Fields.cons "a.b" (.vInt 1)
          (Fields.cons "a" (.vMap (Fields.cons "b" (.vInt 2) .nil)) .nil)
    ∧ mapGet (set (Fields.cons "a.b" (.vInt 1) .nil) "a.b" (.vInt 2)) "a.b"
      = some (.vInt 1) :=
  ⟨rfl, rfl⟩

/-- C4 (amended): a `Set` on a key containing the separator ALWAYS
writes through nested-path creation — the literal flat entry for the
key is neither consulted nor updated (every dotted key's first
segment differs from the whole key, so the flat entry survives
unchanged). -/
theorem set_dotted_never_updates_flat (m : Fields) (k : String) (v : Value)
    (p : String) (rest : List String) (hdot : strContainsCh k '.' = true)
    (hsplit : splitDots k = p :: rest) (hp : p ≠ k) :
    set m k v = setNestedValue m (p :: rest) v
    ∧ mapGet (set m k v) k = mapGet m k := by
  have h1 : set m k v = setNestedValue m (p :: rest) v := by
    simp [set, hdot, hsplit]
  refine ⟨h1, ?_⟩
  rw [h1]
  exact mapGet_setNestedValue_ne m p rest v k hp

/-- Witness for the amended C4 theorem: the existing flat entry
`a.b ↦ 7` is untouched by `Set("a.b", 9)`. -/
theorem set_dotted_never_updates_flat_witness :
    mapGet (set (Fields.cons "a.b" (.vInt 7) .nil) "a.b" (.vInt 9)) "a.b"
      = some (.vInt 7) := by
  have h := set_dotted_never_updates_flat (Fields.cons "a.b" (.vInt 7) .nil)
    "a.b" (.vInt 9) "a" ["b"] rfl rfl (by decide)
  rw [h.2]
  rfl

/-! ## Claim C5 — lossy overwrite of scalar intermediates -/

/-- C5: from every prior store state, `Set("a.b", v1)` (v1 not a map)
followed by `Set("a.b.c", v2)` leaves `GetNestedMap("a.b") = {c: v2}`
— the prior scalar at `a.b` is gone — and in general a nested write
finding a non-map value at an intermediate segment discards it and
replaces it with a fresh empty map so the walk can continue. -/
theorem set_nested_lossy_overwrite :
    (∀ (st : Fields) (v1 v2 : Value), isVMap v1 = false →
      getNestedMap (set (set st "a.b" v1) "a.b.c" v2) "a.b"
        = some (Fields.cons "c" v2 .nil))
    ∧ (∀ (m : Fields) (p q : String) (rest : List String) (w v : Value),
        mapGet m p = some w → isVMap w = false →
        setNestedValue m (p :: q :: rest) v
          = mapSet m p (.vMap (setNestedValue .nil (q :: rest) v))) := by
  constructor
  · intro st v1 v2 h1
    have key : ∀ (st1 M : Fields), mapGet st1 "a" = some (.vMap M) →
        mapGet M "b" = some v1 →
        getNestedMap (set st1 "a.b.c" v2) "a.b" = some (Fields.cons "c" v2 .nil) := by
      intro st1 M hA hB
      have e2 : set st1 "a.b.c" v2 = setNestedValue st1 ["a", "b", "c"] v2 := rfl
      have e3 : setNestedValue st1 ["a", "b", "c"] v2
          = mapSet st1 "a" (.vMap (setNestedValue M ["b", "c"] v2)) := by
        simp [setNestedValue, hA]
      have e4 : setNestedValue M ["b", "c"] v2
          = mapSet M "b" (.vMap (Fields.cons "c" v2 .nil)) :=
        setNestedValue_discards_non_map M "b" "c" [] v1 v2 hB h1
      rw [e2, e3, e4]
      unfold getNestedMap getNestedValueD
      rw [show splitDots "a.b" = ["a", "b"] from rfl]
      simp [getNestedValue, mapGet_mapSet_self]
    have e0 : set st "a.b" v1 = setNestedValue st ["a", "b"] v1 := rfl
    cases ha : mapGet st "a" with
    | none =>
        have e1 : setNestedValue st ["a", "b"] v1
            = mapSet st "a" (.vMap (Fields.cons "b" v1 .nil)) := by
          simp [setNestedValue, ha, mapSet]
        rw [e0, e1]
        exact key _ _ (mapGet_mapSet_self st "a" _) rfl
    | some w =>
        cases w with
        | vMap inner =>
            have e1 : setNestedValue st ["a", "b"] v1
                = mapSet st "a" (.vMap (mapSet inner "b" v1)) := by
              simp [setNestedValue, ha]
            rw [e0, e1]
            exact key _ _ (mapGet_mapSet_self st "a" _)
              (mapGet_mapSet_self inner "b" v1)
        | vStr s =>
            have e1 : setNestedValue st ["a", "b"] v1
                = mapSet st "a" (.vMap (Fields.cons "b" v1 .nil)) := by
              simp [setNestedValue, ha, mapSet]
            rw [e0, e1]
            exact key _ _ (mapGet_mapSet_self st "a" _) rfl
        | vInt n =>
            have e1 : setNestedValue st ["a", "b"] v1
                = mapSet st "a" (.vMap (Fields.cons "b" v1 .nil)) := by
              simp [setNestedValue, ha, mapSet]
            rw [e0, e1]
            exact key _ _ (mapGet_mapSet_self st "a" _) rfl
        | vInt64 n =>
            have e1 : setNestedValue st ["a", "b"] v1
                = mapSet st "a" (.vMap (Fields.cons "b" v1 .nil)) := by
              simp [setNestedValue, ha, mapSet]
            rw [e0, e1]
            exact key _ _ (mapGet_mapSet_self st "a" _) rfl
        | vFloat a b =>
            have e1 : setNestedValue st ["a", "b"] v1
                = mapSet st "a" (.vMap (Fields.cons "b" v1 .nil)) := by
              simp [setNestedValue, ha, mapSet]
            rw [e0, e1]
            exact key _ _ (mapGet_mapSet_self st "a" _) rfl
        | vBool b =>
            have e1 : setNestedValue st ["a", "b"] v1
                = mapSet st "a" (.vMap (Fields.cons "b" v1 .nil)) := by
              simp [setNestedValue, ha, mapSet]
            rw [e0, e1]
            exact key _ _ (mapGet_mapSet_self st "a" _) rfl
        | vList l =>
            have e1 : setNestedValue st ["a", "b"] v1
                = mapSet st "a" (.vMap (Fields.cons "b" v1 .nil)) := by
              simp [setNestedValue, ha, mapSet]
            rw [e0, e1]
            exact key _ _ (mapGet_mapSet_self st "a" _) rfl
        | vNull =>
            have e1 : setNestedValue st ["a", "b"] v1
                = mapSet st "a" (.vMap (Fields.cons "b" v1 .nil)) := by
              simp [setNestedValue, ha, mapSet]
            rw [e0, e1]
            exact key _ _ (mapGet_mapSet_self st "a" _) rfl
  · exact fun m p q rest w v hw hnm =>
      setNestedValue_discards_non_map m p q rest w v hw hnm

/-- Witness for the C5 theorem: starting from the empty store with
the scalar `"x"` at `a.b`. -/
theorem set_nested_lossy_overwrite_witness :
    getNestedMap (set (set Fields.nil "a.b" (.vStr "x")) "a.b.c" (.vInt 5)) "a.b"
      = some (Fields.cons "c" (.vInt 5) .nil) :=
  set_nested_lossy_overwrite.1 Fields.nil (.vStr "x") (.vInt 5) rfl

/-! ## Claim C6 — flat-key precedence on reads -/

/-- Store exhibiting both a literal flat entry `a.b` and a nested
structure matching the same dotted key. -/
def c6store : Fields :=
  Fields.cons "a.b" (.vStr "yes")
    (Fields.cons "a" (.vMap (Fields.cons "b" (.vBool true) .nil)) .nil)

/-- C6 counterexample: the claim says EVERY Get-family read resolves
a key with a literal flat match to that flat entry, but the typed
getters fall through to the nested lookup when the flat value fails
conversion: here the flat entry `a.b ↦ "yes"` exists (and
`strconv.ParseBool("yes")` fails), yet `GetBool("a.b")` returns the
nested `a → {b: true}` value `true` instead of the default `false`
the flat resolution would produce. -/
theorem getBool_flat_fallthrough_cex :
    mapGet c6store "a.b" = some (.vStr "yes")
    ∧ getBool c6store "a.b" [] = true :=
  ⟨rfl, rfl⟩

/-- C6 (amended): flat precedence holds unconditionally for
`GetString` and `Has` (a literal flat match always wins, nested
structure notwithstanding), and for the typed getters whenever the
flat value is convertible (e.g. a stored bool for `GetBool`); when
the flat value exists but fails conversion, the typed getters
additionally consult the nested interpretation before defaulting.
Nested traversal is only attempted when the key contains a
separator, and fails whenever a non-final segment holds a non-map
value — no implicit creation or coercion. -/
theorem flat_precedence_amended :
    (∀ (m : Fields) (k : String) (v : Value) (d : List String),
        mapGet m k = some v → getString m k d = strConvGo v)
    ∧ (∀ (m : Fields) (k : String) (v : Value),
        mapGet m k = some v → hasKey m k = true)
    ∧ (∀ (m : Fields) (k : String) (b : Bool) (d : List Bool),
        mapGet m k = some (.vBool b) → getBool m k d = b)
    ∧ (∀ (m : Fields) (k : String) (d : List String),
        strContainsCh k '.' = false → mapGet m k = none →
        getString m k d = d.headD "" ∧ hasKey m k = false)
    ∧ (∀ (m : Fields) (p q : String) (rest : List String) (w : Value),
        mapGet m p = some w → isVMap w = false →
        getNestedValue m (p :: q :: rest) = none) := by
  refine ⟨?_, ?_, ?_, ?_, ?_⟩
  · intro m k v d h
    simp [getString, h]
  · intro m k v h
    simp [hasKey, h]
  · intro m k b d h
    simp [getBool, boolOfValue?, h]
  · intro m k d hdot h
    constructor
    · simp [getString, h, hdot]
    · simp [hasKey, h, hdot]
  · intro m p q rest w hw hnm
    cases w <;> simp_all [getNestedValue, isVMap]

/-- Witness for the amended C6 theorem, instantiating each clause at
a concrete store. -/
theorem flat_precedence_amended_witness :
    getString (Fields.cons "k" (.vInt 3) .nil) "k" [] = "3"
    ∧ hasKey (Fields.cons "k" (.vInt 3) .nil) "k" = true
    ∧ getBool (Fields.cons "k" (.vBool true) .nil) "k" [] = true
    ∧ (getString Fields.nil "k" ["d"] = "d" ∧ hasKey Fields.nil "k" = false)
    ∧ getNestedValue (Fields.cons "a" (.vStr "s") .nil) ["a", "b"] = none :=
  ⟨flat_precedence_amended.1 _ "k" (.vInt 3) [] rfl,
   flat_precedence_amended.2.1 _ "k" (.vInt 3) rfl,
   flat_precedence_amended.2.2.1 _ "k" true [] rfl,
   flat_precedence_amended.2.2.2.1 _ "k" ["d"] rfl rfl,
   flat_precedence_amended.2.2.2.2 _ "a" "b" [] (.vStr "s") rfl rfl⟩

end GoConfig
